import Mathlib

/-
Verification development for the reddit submission/comment scraper.

The embedding below is a shallow model of the three Python source files
(`main.py`, `modules/submission_scraper.py`, `modules/comment_scraper.py`).
Network fetches are modelled by an oracle giving the (already JSON-decoded
and `comment_data`-formatted) page returned by each successive request;
filesystem operations are modelled by boolean oracles; the unbounded
`while True` loops are modelled with an explicit fuel parameter, where a
`none` result means the fuel ran out before the loop finished.
-/

namespace RedditScraper

/-! ## Retry wrapper (comment_scraper.py lines 127-133, 157-163;
    submission_scraper.py lines 48-60, 126-152, 244-267)

The pattern `while True: try: ...; break except Exception as e:
print(f'{e}\nRetrying in 10 seconds...'); time.sleep(10)` is modelled as a
fuel-bounded loop over an oracle `op` giving the outcome of each attempt.
Each failed attempt appends one log line and sleeps 10 time units. -/

structure RetryOutcome (α : Type) where
  result : α
  failLogs : List String
  sleepUnits : Nat
deriving DecidableEq

def retryLoop (op : Nat → Except String α) :
    Nat → Nat → List String → Nat → Option (RetryOutcome α)
  | 0, _, _, _ => none
  | fuel+1, attempt, logs, slept =>
    match op attempt with
    | .ok a => some ⟨a, logs, slept⟩
    | .error e =>
      retryLoop op fuel (attempt+1)
        (logs ++ [e ++ "\nRetrying in 10 seconds..."]) (slept + 10)

def withRetry (op : Nat → Except String α) (fuel : Nat) :
    Option (RetryOutcome α) :=
  retryLoop op fuel 0 [] 0

/-! ## Enrichment (submission_scraper.py, `get_updated_submission_information`,
    lines 46-65)

The source builds `submission_information = []` once, then inside
`while True: try:` iterates over the rows appending one dict per row, and on
any exception sleeps and retries the whole `for` loop -- WITHOUT resetting
the accumulator list.  `lookup attempt id` models
`reddit.submission(id)` field access on the given retry attempt: `some`
is a successful lookup of (score, upvote ratio), `none` is a raised
exception.  The float `upvote_ratio` is modelled as an integer (its
arithmetic is never used). -/

structure SubInfo where
  id : String
  score : Int
  upvoteRatio : Int
deriving DecidableEq

def enrichAttempt (lookup : String → Option (Int × Int)) :
    List String → List SubInfo → Except (List SubInfo) (List SubInfo)
  | [], acc => .ok acc
  | id :: rest, acc =>
    match lookup id with
    | some (s, r) => enrichAttempt lookup rest (acc ++ [⟨id, s, r⟩])
    | none => .error acc

def enrichLoop (lookup : Nat → String → Option (Int × Int))
    (ids : List String) : Nat → Nat → List SubInfo → Option (List SubInfo)
  | 0, _, _ => none
  | fuel+1, attempt, acc =>
    match enrichAttempt (lookup attempt) ids acc with
    | .ok acc' => some acc'
    | .error acc' => enrichLoop lookup ids fuel (attempt+1) acc'

def get_updated_submission_information
    (lookup : Nat → String → Option (Int × Int)) (ids : List String)
    (fuel : Nat) : Option (List SubInfo) :=
  enrichLoop lookup ids fuel 0 []

/-! ## Text normalization
    (submission_scraper.py lines 274-295; comment_scraper.py lines 37-46
    and 66-70)

Strings are handled through their character lists. -/

/-- `.replace('\n', ' ')` on a Python string. -/
def nlToSpace (l : List Char) : List Char :=
  l.map fun c => if c = '\n' then ' ' else c

/-- `.encode('ascii', 'ignore').decode()` : drops every non-ASCII char. -/
def asciiIgnore (l : List Char) : List Char :=
  l.filter fun c => c.toNat < 128

/-- `re.sub(r' +', ' ', s)` : each maximal run of spaces becomes one space. -/
def collapseSpaces : List Char → List Char
  | [] => []
  | [c] => [c]
  | a :: b :: rest =>
    if a = ' ' ∧ b = ' ' then collapseSpaces (b :: rest)
    else a :: collapseSpaces (b :: rest)

/-- The whitespace set of Python `str.strip()`. -/
def pyWs (c : Char) : Bool :=
  c = ' ' || c = '\t' || c = '\n' || c = '\r' ||
  c = Char.ofNat 11 || c = Char.ofNat 12

/-- Remove trailing `pyWs` characters. -/
def dropTrailing (l : List Char) : List Char :=
  (l.reverse.dropWhile pyWs).reverse

/-- Python `str.strip()`. -/
def pyStrip (l : List Char) : List Char :=
  dropTrailing (l.dropWhile pyWs)

/-- One left-to-right pass of Python `str.replace(pat, '')`:
removes every non-overlapping occurrence of `pat`.  The fuel is the
length of the input, which suffices for a non-empty pattern. -/
def removeAllAux (pat : List Char) : Nat → List Char → List Char
  | 0, l => l
  | _+1, [] => []
  | fuel+1, c :: cs =>
    if pat ≠ [] ∧ pat.isPrefixOf (c :: cs) then
      removeAllAux pat fuel ((c :: cs).drop pat.length)
    else
      c :: removeAllAux pat fuel cs

def removeAll (pat l : List Char) : List Char :=
  removeAllAux pat l.length l

def deletedMark : List Char := "[deleted]".data

def removedMark : List Char := "[removed]".data

/-- The `selftext`/`title` pipeline of submission_scraper.py
(lines 274-290): replace newlines, drop non-ASCII, collapse space runs,
remove the literal substrings `[deleted]` and `[removed]`, strip. -/
def submissionTextClean (s : String) : String :=
  String.mk (pyStrip (removeAll removedMark (removeAll deletedMark
    (collapseSpaces (asciiIgnore (nlToSpace s.data))))))

/-- The comment body cleaning of comment_scraper.py lines 66-70:
replace newlines, drop non-ASCII, collapse space runs, strip. -/
def commentBodyClean (s : String) : String :=
  String.mk (pyStrip (collapseSpaces (asciiIgnore (nlToSpace s.data))))

/-- The `variable = None, slice = 0` branch of
`GetComments.dict_formatter` (comment_scraper.py lines 37-46):
`return input_text if input_text not in invalid else fail_return`,
where `invalid = ['[deleted]', '[removed]']` and `fail_return = None`. -/
def dict_formatter_text (input_text : String) : Option String :=
  if input_text = "[deleted]" ∨ input_text = "[removed]" then none
  else some input_text

/-- The full comment `body` field: the cleaned body run through
`dict_formatter(None, comment_body, None)` (comment_scraper.py line 91). -/
def commentBodyField (s : String) : Option String :=
  dict_formatter_text (commentBodyClean s)

/-- No two adjacent spaces. -/
def noRun (l : List Char) : Prop :=
  l.Chain' fun a b => ¬(a = ' ' ∧ b = ' ')

/-- Neither end of the list is a Python-whitespace character. -/
def notWsEnds (l : List Char) : Prop :=
  (∀ c, l.head? = some c → pyWs c = false) ∧
  (∀ c, l.getLast? = some c → pyWs c = false)

/-- `pat` occurs as a contiguous sublist of `l`. -/
def containsSub (pat : List Char) : List Char → Bool
  | [] => pat.isEmpty
  | c :: cs => pat.isPrefixOf (c :: cs) || containsSub pat cs

/-! ## Comment harvesting (comment_scraper.py, `get_comments`, lines 99-195)

The per-submission body of the `for row in df.itertuples()` loop.
`pages n` is the `comment_data`-formatted record list of the n-th
successful request for this submission (the first `?link_id=...&limit=10000`
request is `pages 0`; the n-th follow-up `&before=...` request is
`pages n`).  The infinite network retry around each request is modelled
separately by `withRetry`; `pages` gives its eventual successful value.
`mkdirOk` models `comment_path.mkdir(parents=True)` and `writeOk fn`
models `to_csv` of the shard with file number `fn`; a `false` oracle is a
raised `OSError`, which the source does not catch, so the model stops at
once and surfaces it.  A record keeps the fields the loop inspects:
`dt` (`created_utc`, the pagination cursor) plus an opaque `body`
standing for all remaining formatted columns, so page equality is
`DataFrame.equals`. -/

structure CRec where
  dt : Int
  body : String
deriving DecidableEq

/-- `comment_df1['dt'].min()` (comment_scraper.py line 154); the source
only evaluates it on pages of more than 8999 records, so the `[]` case
is an arbitrary default. -/
def pageMin : List CRec → Int
  | [] => 0
  | r :: rs => rs.foldl (fun m s => min m s.dt) r.dt

/-- One follow-up query: the `before` bound it was issued with and the
page it returned. -/
structure QueryEvent where
  bound : Int
  page : List CRec
deriving DecidableEq

structure HarvestState where
  counter : Nat
  fileNumber : Nat
  shards : List (Nat × List CRec)
  attempts : List Nat
  events : List QueryEvent
  logs : List String
deriving DecidableEq

inductive HarvestResult where
  | ok : HarvestState → HarvestResult
  | mkdirError : HarvestResult
  | writeError : Nat → HarvestState → HarvestResult
deriving DecidableEq

def resultCounter : HarvestResult → Nat
  | .ok st => st.counter
  | .writeError _ st => st.counter
  | .mkdirError => 0

def resultShards : HarvestResult → List (Nat × List CRec)
  | .ok st => st.shards
  | .writeError _ st => st.shards
  | .mkdirError => []

def resultEvents : HarvestResult → List QueryEvent
  | .ok st => st.events
  | .writeError _ st => st.events
  | .mkdirError => []

/-- One iteration of the `while True:` pagination loop of
comment_scraper.py lines 150-191.  `df1` is `comment_df1`, `i` the index
of the next fetch in `pages`.  Mirrors the source order: continue only
when `len(comment_df1) > 8999` (else `break`, returning the loop result);
fetch `comment_df2` with `before = comment_df1['dt'].min()`;
`comment_counter += num_comments`; then
`if not comment_df2.equals(comment_df1)`: `if not comment_df2.empty`
write the next shard (file number incremented first) and continue with
`comment_df1 = comment_df2`, else log `Skipping empty DataFrame...` and
continue with the empty page; else log `Skipping duplicate DataFrame...`
and continue with `comment_df1 = pd.DataFrame()`.  A failing `to_csv`
(`writeOk` false) raises, which the source does not catch: the loop is
exited with a `writeError`.  `.error` = loop exits with this result;
`.ok` = loop continues with new `comment_df1` and state. -/
def harvestStep (pages : Nat → List CRec) (writeOk : Nat → Bool)
    (df1 : List CRec) (i : Nat) (st : HarvestState) :
    Except HarvestResult (List CRec × HarvestState) :=
  if 8999 < df1.length then
    if pages i ≠ df1 then
      if pages i ≠ [] then
        if writeOk (st.fileNumber + 1) then
          .ok (pages i,
            { counter := st.counter + (pages i).length,
              fileNumber := st.fileNumber + 1,
              shards := st.shards ++ [(st.fileNumber + 1, pages i)],
              attempts := st.attempts ++ [st.fileNumber + 1],
              events := st.events ++ [QueryEvent.mk (pageMin df1) (pages i)],
              logs := st.logs })
        else
          .error (.writeError (st.fileNumber + 1)
            { counter := st.counter + (pages i).length,
              fileNumber := st.fileNumber + 1,
              shards := st.shards,
              attempts := st.attempts ++ [st.fileNumber + 1],
              events := st.events ++ [QueryEvent.mk (pageMin df1) (pages i)],
              logs := st.logs })
      else
        .ok (pages i,
          { st with counter := st.counter + (pages i).length,
                    events :=
                      st.events ++ [QueryEvent.mk (pageMin df1) (pages i)],
                    logs := st.logs ++ ["Skipping empty DataFrame..."] })
    else
      .ok ([],
        { st with counter := st.counter + (pages i).length,
                  events :=
                    st.events ++ [QueryEvent.mk (pageMin df1) (pages i)],
                  logs := st.logs ++ ["Skipping duplicate DataFrame..."] })
  else
    .error (.ok st)

/-- The `while True:` pagination loop itself: iterate `harvestStep`
until it exits, with fuel bounding the number of iterations. -/
def harvestLoop (pages : Nat → List CRec) (writeOk : Nat → Bool) :
    Nat → List CRec → Nat → HarvestState → Option HarvestResult
  | 0, _, _, _ => none
  | fuel+1, df1, i, st =>
    match harvestStep pages writeOk df1 i st with
    | .error r => some r
    | .ok (df2, st') => harvestLoop pages writeOk fuel df2 (i+1) st'

/-- One iteration of the outer `for row in df.itertuples()` loop of
`get_comments` (comment_scraper.py lines 120-193): fetch the first page,
create the shard directory, count the page, write it unconditionally as
shard number 1, then run the pagination loop. -/
def harvestChildren (pages : Nat → List CRec) (mkdirOk : Bool)
    (writeOk : Nat → Bool) (fuel : Nat) : Option HarvestResult :=
  if mkdirOk then
    let df1 := pages 0
    let st1 : HarvestState :=
      { counter := df1.length, fileNumber := 1, shards := [],
        attempts := [1], events := [], logs := [] }
    if writeOk 1 then
      harvestLoop pages writeOk fuel df1 1 { st1 with shards := [(1, df1)] }
    else
      some (.writeError 1 st1)
  else
    some .mkdirError

/-- `get_comments` over a whole submission DataFrame: each row is given
by its page oracle; the rows' comment counters are summed.  Filesystem
oracles are fixed to success here (a row's filesystem exception would
abort the whole function, which the per-row model `harvestChildren`
already exhibits). -/
def get_comments (rows : List (Nat → List CRec)) (fuel : Nat) :
    Option (Nat × List HarvestState) :=
  match rows with
  | [] => some (0, [])
  | rp :: rest =>
    match harvestChildren rp true (fun _ => true) fuel,
          get_comments rest fuel with
    | some (.ok st), some (cnt, sts) => some (st.counter + cnt, st :: sts)
    | _, _ => none

/-- The termination hypothesis of the spec: some fetch returns a page
below the cutoff, an empty page, or a page equal to the previous fetch. -/
def termCond (pages : Nat → List CRec) (k : Nat) : Prop :=
  (pages k).length < 9000 ∨ pages k = [] ∨ pages (k+1) = pages k

/-- The chain invariant of the follow-up queries: the first query's bound
is the minimum `dt` of `d1` (the page preceding it), each later query's
bound is the minimum `dt` of the page the previous query returned, and
every page a query was issued from had at least 9000 records (hence was
non-empty). -/
def boundChain : List CRec → List QueryEvent → Prop
  | _, [] => True
  | d1, e :: rest =>
    e.bound = pageMin d1 ∧ 9000 ≤ d1.length ∧ boundChain e.page rest


/-- Concrete scenario inputs used as witnesses below: a cutoff-sized
first page, a one-record follow-up page with a lower timestamp, and the
state `harvestChildren` reaches on them. -/
def c3Page1 : List CRec := List.replicate 9000 ⟨5, "x"⟩

def c3Page2 : List CRec := [⟨3, "y"⟩]

def c3Pages : Nat → List CRec :=
  fun n => if n = 0 then c3Page1 else if n = 1 then c3Page2 else []

def c3State : HarvestState :=
  ⟨9001, 2, [(1, c3Page1), (2, c3Page2)], [1, 2],
    [QueryEvent.mk 5 c3Page2], []⟩

def c4Lookup : Nat → String → Option (Int × Int) :=
  fun attempt id =>
    if attempt = 0 ∧ id = "b" then none
    else if id = "a" then some (1, 50) else some (2, 80)

def c4CleanLookup : Nat → String → Option (Int × Int) :=
  fun _ id => if id = "a" then some (1, 50) else some (2, 80)

theorem harvestLoop_mono {pages : Nat → List CRec} {writeOk : Nat → Bool} :
    ∀ {fuel : Nat} {df1 : List CRec} {i : Nat} {st : HarvestState}
      {r : HarvestResult},
    harvestLoop pages writeOk fuel df1 i st = some r →
    harvestLoop pages writeOk (fuel+1) df1 i st = some r := by
  intro fuel
  induction fuel with
  | zero => intro df1 i st r h; exact absurd h (by simp [harvestLoop])
  | succ n ih =>
    intro df1 i st r h
    rw [harvestLoop] at h
    rw [harvestLoop]
    cases hstep : harvestStep pages writeOk df1 i st with
    | error r' => rw [hstep] at h; exact h
    | ok pr =>
      rw [hstep] at h
      obtain ⟨df2, st'⟩ := pr
      exact ih h

theorem boundChain_nil {l : List QueryEvent} (h : boundChain [] l) :
    l = [] := by
  cases l with
  | nil => rfl
  | cons e rest =>
    exact absurd h.2.1 (by simp)

theorem harvestLoop_spec {pages : Nat → List CRec} {writeOk : Nat → Bool} :
    ∀ {fuel : Nat} {df1 : List CRec} {i : Nat} {st : HarvestState}
      {r : HarvestResult},
    harvestLoop pages writeOk fuel df1 i st = some r →
    ∃ etail stail,
      resultEvents r = st.events ++ etail ∧
      boundChain df1 etail ∧
      resultCounter r = st.counter + (etail.map fun e => e.page.length).sum ∧
      resultShards r = st.shards ++ stail := by
  intro fuel
  induction fuel with
  | zero => intro df1 i st r h; exact absurd h (by simp [harvestLoop])
  | succ n ih =>
    intro df1 i st r h
    rw [harvestLoop] at h
    cases hstep : harvestStep pages writeOk df1 i st with
    | error r' =>
      rw [hstep] at h
      obtain rfl : r' = r := Option.some.inj h
      simp only [harvestStep] at hstep
      split at hstep
      · rename_i hbig
        split at hstep
        · rename_i hne
          split at hstep
          · rename_i hnem
            split at hstep
            · exact absurd hstep (by simp)
            · -- write fails
              obtain rfl := (Except.error.inj hstep).symm
              refine ⟨[QueryEvent.mk (pageMin df1) (pages i)], [], ?_, ?_, ?_, ?_⟩
              · simp [resultEvents]
              · exact ⟨rfl, by omega, trivial⟩
              · simp [resultCounter]
              · simp [resultShards]
          · exact absurd hstep (by simp)
        · exact absurd hstep (by simp)
      · -- small page
        obtain rfl := (Except.error.inj hstep).symm
        exact ⟨[], [], by simp [resultEvents], trivial,
          by simp [resultCounter], by simp [resultShards]⟩
    | ok pr =>
      obtain ⟨df2, st'⟩ := pr
      rw [hstep] at h
      simp only [harvestStep] at hstep
      split at hstep
      · rename_i hbig
        split at hstep
        · rename_i hne
          split at hstep
          · rename_i hnem
            split at hstep
            · -- write succeeds: continue with pages i
              have h12 := Except.ok.inj hstep
              have h1 : pages i = df2 := congrArg Prod.fst h12
              have h2 := congrArg Prod.snd h12
              simp only at h1 h2
              subst h1; subst h2
              obtain ⟨etail, stail, he, hbc, hc, hs⟩ := ih h
              refine ⟨QueryEvent.mk (pageMin df1) (pages i) :: etail,
                (st.fileNumber + 1, pages i) :: stail, ?_, ?_, ?_, ?_⟩
              · simp [he]
              · exact ⟨rfl, by omega, hbc⟩
              · simp [hc, List.sum_cons]; omega
              · simp [hs]
            · exact absurd hstep (by simp)
          · -- empty follow-up page: continue with pages i (= [])
            have h12 := Except.ok.inj hstep
            have h1 : pages i = df2 := congrArg Prod.fst h12
            have h2 := congrArg Prod.snd h12
            simp only at h1 h2
            subst h1; subst h2
            obtain ⟨etail, stail, he, hbc, hc, hs⟩ := ih h
            refine ⟨QueryEvent.mk (pageMin df1) (pages i) :: etail, stail,
              ?_, ?_, ?_, ?_⟩
            · simp [he]
            · exact ⟨rfl, by omega, hbc⟩
            · simp [hc, List.sum_cons]; omega
            · simp [hs]
        · -- duplicate page: continue with []
          have h12 := Except.ok.inj hstep
          have h1 : ([] : List CRec) = df2 := congrArg Prod.fst h12
          have h2 := congrArg Prod.snd h12
          simp only at h1 h2
          subst h1; subst h2
          obtain ⟨etail, stail, he, hbc, hc, hs⟩ := ih h
          have hnil : etail = [] := boundChain_nil hbc
          subst hnil
          refine ⟨[QueryEvent.mk (pageMin df1) (pages i)], stail, ?_, ?_, ?_, ?_⟩
          · simp [he]
          · exact ⟨rfl, by omega, trivial⟩
          · simp [hc]
          · simp [hs]
      · exact absurd hstep (by simp)

theorem harvestChildren_mono {pages : Nat → List CRec} {mk : Bool}
    {wo : Nat → Bool} {fuel : Nat} {r : HarvestResult}
    (h : harvestChildren pages mk wo fuel = some r) :
    harvestChildren pages mk wo (fuel+1) = some r := by
  unfold harvestChildren at h ⊢
  cases mk with
  | false => exact h
  | true =>
    simp only [if_true] at h ⊢
    by_cases hw : wo 1 = true
    · rw [if_pos hw] at h ⊢
      exact harvestLoop_mono h
    · rw [if_neg hw] at h ⊢
      exact h

theorem harvestChildren_mono_le {pages : Nat → List CRec} {mk : Bool}
    {wo : Nat → Bool} {f1 f2 : Nat} {r : HarvestResult} (hle : f1 ≤ f2)
    (h : harvestChildren pages mk wo f1 = some r) :
    harvestChildren pages mk wo f2 = some r := by
  induction f2, hle using Nat.le_induction with
  | base => exact h
  | succ n hn ih => exact harvestChildren_mono ih

theorem harvestLoop_stop {pages : Nat → List CRec} {writeOk : Nat → Bool}
    {fuel : Nat} {df1 : List CRec} {i : Nat} {st : HarvestState}
    {r : HarvestResult}
    (hstep : harvestStep pages writeOk df1 i st = .error r) :
    harvestLoop pages writeOk (fuel+1) df1 i st = some r := by
  rw [harvestLoop, hstep]

theorem harvestLoop_cont {pages : Nat → List CRec} {writeOk : Nat → Bool}
    {fuel : Nat} {df1 df2 : List CRec} {i : Nat} {st st' : HarvestState}
    (hstep : harvestStep pages writeOk df1 i st = .ok (df2, st')) :
    harvestLoop pages writeOk (fuel+1) df1 i st =
      harvestLoop pages writeOk fuel df2 (i+1) st' := by
  rw [harvestLoop, hstep]

theorem harvestLoop_small {pages : Nat → List CRec} {writeOk : Nat → Bool}
    {df1 : List CRec} {i : Nat} {st : HarvestState}
    (hsmall : df1.length ≤ 8999) :
    ∀ {fuel : Nat}, 1 ≤ fuel →
    harvestLoop pages writeOk fuel df1 i st = some (.ok st) := by
  intro fuel hfuel
  cases fuel with
  | zero => omega
  | succ n =>
    exact harvestLoop_stop (by simp [harvestStep, Nat.not_lt.2 hsmall])

theorem harvestStep_ok_cases {pages : Nat → List CRec}
    {writeOk : Nat → Bool} {df1 df2 : List CRec} {i : Nat}
    {st st' : HarvestState}
    (hstep : harvestStep pages writeOk df1 i st = .ok (df2, st')) :
    (df2 = pages i ∧ pages i ≠ df1) ∨ (df2 = [] ∧ pages i = df1) := by
  simp only [harvestStep] at hstep
  split at hstep
  · split at hstep
    · rename_i hne
      split at hstep
      · split at hstep
        · exact Or.inl ⟨(congrArg Prod.fst (Except.ok.inj hstep)).symm, hne⟩
        · exact absurd hstep (by simp)
      · exact Or.inl ⟨(congrArg Prod.fst (Except.ok.inj hstep)).symm, hne⟩
    · rename_i hne
      exact Or.inr ⟨(congrArg Prod.fst (Except.ok.inj hstep)).symm,
        not_not.mp hne⟩
  · exact absurd hstep (by simp)

theorem harvestLoop_term {pages : Nat → List CRec} {writeOk : Nat → Bool} :
    ∀ (d j : Nat) {st : HarvestState},
    ((pages (j+d)).length < 9000 ∨ pages (j+d) = [] ∨
      pages (j+d+1) = pages (j+d)) →
    (harvestLoop pages writeOk (d+2) (pages j) (j+1) st).isSome := by
  intro d
  induction d with
  | zero =>
    intro j st hcond
    simp only [Nat.add_zero] at hcond
    by_cases hbig : 8999 < (pages j).length
    · cases hstep : harvestStep pages writeOk (pages j) (j+1) st with
      | error r => rw [harvestLoop_stop hstep]; rfl
      | ok pr =>
        obtain ⟨df2, st'⟩ := pr
        rw [harvestLoop_cont hstep]
        rcases harvestStep_ok_cases hstep with ⟨hdf, hne⟩ | ⟨hdf, _⟩
        · -- a continued page is possible only in the duplicate case here
          have hdup : pages (j+1) = pages j := by
            rcases hcond with hc | hc | hc
            · omega
            · rw [hc] at hbig; simp at hbig
            · exact hc
          exact absurd hdup hne
        · subst hdf
          rw [harvestLoop_small (by simp) (by omega)]
          rfl
    · rw [harvestLoop_small (by omega) (by omega)]
      rfl
  | succ d ih =>
    intro j st hcond
    by_cases hbig : 8999 < (pages j).length
    · cases hstep : harvestStep pages writeOk (pages j) (j+1) st with
      | error r => rw [harvestLoop_stop hstep]; rfl
      | ok pr =>
        obtain ⟨df2, st'⟩ := pr
        rw [harvestLoop_cont hstep]
        rcases harvestStep_ok_cases hstep with ⟨hdf, _⟩ | ⟨hdf, _⟩
        · subst hdf
          have hcond' : (pages (j+1+d)).length < 9000 ∨ pages (j+1+d) = [] ∨
              pages (j+1+d+1) = pages (j+1+d) := by
            have e1 : j+1+d = j+(d+1) := by omega
            rw [e1]
            exact hcond
          exact ih (j+1) hcond'
        · subst hdf
          rw [harvestLoop_small (by simp) (by omega)]
          rfl
    · rw [harvestLoop_small (by omega) (by omega)]
      rfl

theorem foldl_min_le {rs : List CRec} :
    ∀ {a b : Int}, a ≤ b →
    rs.foldl (fun m s => min m s.dt) a ≤ b := by
  induction rs with
  | nil => intro a b h; simpa
  | cons r rs ih =>
    intro a b h
    exact ih (le_trans (min_le_left _ _) h)

theorem pageMin_le_of_forall {p : List CRec} {b : Int} (hne : p ≠ [])
    (h : ∀ r ∈ p, r.dt ≤ b) : pageMin p ≤ b := by
  cases p with
  | nil => exact absurd rfl hne
  | cons r rs =>
    exact foldl_min_le (h r (List.mem_cons_self r rs))

theorem boundChain_chain' : ∀ {l : List QueryEvent} {d : List CRec},
    boundChain d l → (∀ e ∈ l, ∀ rec ∈ e.page, rec.dt ≤ e.bound) →
    l.Chain' (fun a b => b.bound ≤ a.bound) := by
  intro l
  induction l with
  | nil => intro d _ _; exact List.chain'_nil
  | cons e rest ih =>
    intro d hbc hresp
    cases rest with
    | nil => simp
    | cons e2 r2 =>
      obtain ⟨hb, hlen, hrest⟩ := hbc
      have hb2 := hrest.1
      have hlen2 := hrest.2.1
      rw [List.chain'_cons]
      constructor
      · rw [hb2]
        refine pageMin_le_of_forall ?_ ?_
        · intro hh
          rw [hh] at hlen2
          simp at hlen2
        · exact fun rec hrec => hresp e (List.mem_cons_self _ _) rec hrec
      · exact ih hrest fun e' he' => hresp e' (List.mem_cons_of_mem _ he')

theorem foldl_min_replicate : ∀ (n : Nat) (a : Int) (r : CRec),
    (List.replicate n r).foldl (fun m s => min m s.dt) a =
      if n = 0 then a else min a r.dt := by
  intro n
  induction n with
  | zero => intro a r; simp
  | succ n ih =>
    intro a r
    rw [List.replicate_succ, List.foldl_cons, ih]
    by_cases hn : n = 0
    · simp [hn]
    · simp [hn, min_assoc]

theorem pageMin_replicate {n : Nat} (hn : 0 < n) (r : CRec) :
    pageMin (List.replicate n r) = r.dt := by
  cases n with
  | zero => omega
  | succ n =>
    rw [List.replicate_succ]
    show (List.replicate n r).foldl (fun m s => min m s.dt) r.dt = r.dt
    rw [foldl_min_replicate]
    by_cases hn' : n = 0 <;> simp [hn']

theorem harvestChildren_two_pages (p1 p2 : List CRec)
    (h1 : 8999 < p1.length) (hne : p2 ≠ p1) (hnem : p2 ≠ [])
    (h2 : p2.length ≤ 8999) :
    harvestChildren (fun n => if n = 0 then p1 else if n = 1 then p2 else [])
      true (fun _ => true) 2 =
    some (.ok ⟨p1.length + p2.length, 2, [(1, p1), (2, p2)], [1, 2],
      [QueryEvent.mk (pageMin p1) p2], []⟩) := by
  unfold harvestChildren
  simp only [if_true, if_pos rfl]
  have hstep : harvestStep
      (fun n => if n = 0 then p1 else if n = 1 then p2 else [])
      (fun _ => true) p1 1
      ⟨p1.length, 1, [(1, p1)], [1], [], []⟩ =
      .ok (p2, ⟨p1.length + p2.length, 2, [(1, p1), (2, p2)], [1, 2],
        [QueryEvent.mk (pageMin p1) p2], []⟩) := by
    simp [harvestStep, h1, hne, hnem]
  rw [harvestLoop_cont hstep]
  exact harvestLoop_small h2 (by omega)

theorem harvestChildren_dup {p : List CRec} (h1 : 8999 < p.length) :
    harvestChildren (fun _ => p) true (fun _ => true) 2 =
    some (.ok ⟨p.length + p.length, 1, [(1, p)], [1],
      [QueryEvent.mk (pageMin p) p], ["Skipping duplicate DataFrame..."]⟩) := by
  unfold harvestChildren
  simp only [if_true, if_pos rfl]
  have hstep : harvestStep (fun _ => p) (fun _ => true) p 1
      ⟨p.length, 1, [(1, p)], [1], [], []⟩ =
      .ok ([], ⟨p.length + p.length, 1, [(1, p)], [1],
        [QueryEvent.mk (pageMin p) p],
        ["Skipping duplicate DataFrame..."]⟩) := by
    simp [harvestStep, h1]
  rw [harvestLoop_cont hstep]
  exact harvestLoop_small (by simp) (by omega)

theorem harvestLoop_writeError {pages : Nat → List CRec}
    {wo : Nat → Bool} :
    ∀ {fuel : Nat} {df1 : List CRec} {i : Nat} {st : HarvestState}
      {fn : Nat} {st' : HarvestState},
    harvestLoop pages wo fuel df1 i st = some (.writeError fn st') →
    st.attempts = List.range' 1 st.fileNumber →
    st.shards.map Prod.fst = List.range' 1 st.fileNumber →
    wo fn = false ∧ fn = st'.fileNumber ∧ 1 ≤ fn ∧
      st'.attempts = List.range' 1 fn ∧
      st'.shards.map Prod.fst = List.range' 1 (fn - 1) := by
  intro fuel
  induction fuel with
  | zero =>
    intro df1 i st fn st' h
    exact absurd h (by simp [harvestLoop])
  | succ n ih =>
    intro df1 i st fn st' h hatt hsh
    rw [harvestLoop] at h
    cases hstep : harvestStep pages wo df1 i st with
    | error r =>
      rw [hstep] at h
      obtain rfl : r = .writeError fn st' := Option.some.inj h
      simp only [harvestStep] at hstep
      split at hstep
      · split at hstep
        · split at hstep
          · split at hstep
            · exact absurd hstep (by simp)
            · rename_i hw
              have h12 := HarvestResult.writeError.inj (Except.error.inj hstep)
              obtain ⟨hfn, hst⟩ := h12
              subst hfn
              subst hst
              refine ⟨by simpa using hw, rfl, by omega, ?_, ?_⟩
              · show st.attempts ++ [st.fileNumber + 1] =
                  List.range' 1 (st.fileNumber + 1)
                rw [hatt, List.range'_1_concat]
                simp [Nat.add_comm]
              · simpa using hsh
          · exact absurd hstep (by simp)
        · exact absurd hstep (by simp)
      · exact absurd hstep (by simp)
    | ok pr =>
      obtain ⟨df2, st2⟩ := pr
      rw [hstep] at h
      simp only [harvestStep] at hstep
      split at hstep
      · split at hstep
        · split at hstep
          · split at hstep
            · -- write succeeded: invariants preserved
              have h12 := Except.ok.inj hstep
              have h1 : pages i = df2 := congrArg Prod.fst h12
              have h2 := congrArg Prod.snd h12
              simp only at h1 h2
              subst h1; subst h2
              refine ih h ?_ ?_
              · show st.attempts ++ [st.fileNumber + 1] =
                  List.range' 1 (st.fileNumber + 1)
                rw [hatt, List.range'_1_concat]
                simp [Nat.add_comm]
              · show (st.shards ++ [(st.fileNumber + 1, pages i)]).map
                  Prod.fst = List.range' 1 (st.fileNumber + 1)
                rw [List.map_append, hsh, List.range'_1_concat]
                simp [Nat.add_comm]
            · exact absurd hstep (by simp)
          · -- empty page: state fields unchanged
            have h12 := Except.ok.inj hstep
            have h1 : pages i = df2 := congrArg Prod.fst h12
            have h2 := congrArg Prod.snd h12
            simp only at h1 h2
            subst h1; subst h2
            exact ih h (by simpa using hatt) (by simpa using hsh)
        · -- duplicate page: state fields unchanged
          have h12 := Except.ok.inj hstep
          have h1 : ([] : List CRec) = df2 := congrArg Prod.fst h12
          have h2 := congrArg Prod.snd h12
          simp only at h1 h2
          subst h1; subst h2
          exact ih h (by simpa using hatt) (by simpa using hsh)
      · exact absurd hstep (by simp)

theorem harvestChildren_writeError {pages : Nat → List CRec}
    {wo : Nat → Bool} {fuel fn : Nat} {st' : HarvestState}
    (h : harvestChildren pages true wo fuel = some (.writeError fn st')) :
    wo fn = false ∧ 1 ≤ fn ∧ st'.attempts = List.range' 1 fn ∧
      st'.shards.map Prod.fst = List.range' 1 (fn - 1) := by
  unfold harvestChildren at h
  simp only [if_true] at h
  by_cases hw : wo 1 = true
  · rw [if_pos hw] at h
    have := harvestLoop_writeError h (by simp) (by simp)
    exact ⟨this.1, this.2.2.1, this.2.2.2.1, this.2.2.2.2⟩
  · rw [if_neg hw] at h
    have h12 := HarvestResult.writeError.inj (Option.some.inj h)
    obtain ⟨hfn, hst⟩ := h12
    subst hfn
    subst hst
    exact ⟨by simpa using hw, by omega, by simp, by simp⟩

theorem harvestStep_big_events {pages : Nat → List CRec} {wo : Nat → Bool}
    {df1 : List CRec} {i : Nat} {st : HarvestState}
    (hbig : 8999 < df1.length) :
    (∀ df2 st', harvestStep pages wo df1 i st = .ok (df2, st') →
      st'.events = st.events ++ [QueryEvent.mk (pageMin df1) (pages i)]) ∧
    (∀ r, harvestStep pages wo df1 i st = .error r →
      resultEvents r =
        st.events ++ [QueryEvent.mk (pageMin df1) (pages i)]) := by
  constructor
  · intro df2 st' hstep
    simp only [harvestStep] at hstep
    rw [if_pos hbig] at hstep
    split at hstep
    · split at hstep
      · split at hstep
        · have h2 := congrArg Prod.snd (Except.ok.inj hstep)
          simp only at h2
          rw [← h2]
        · exact absurd hstep (by simp)
      · have h2 := congrArg Prod.snd (Except.ok.inj hstep)
        simp only at h2
        rw [← h2]
    · have h2 := congrArg Prod.snd (Except.ok.inj hstep)
      simp only at h2
      rw [← h2]
  · intro r hstep
    simp only [harvestStep] at hstep
    rw [if_pos hbig] at hstep
    split at hstep
    · split at hstep
      · split at hstep
        · exact absurd hstep (by simp)
        · have h2 := Except.error.inj hstep
          rw [← h2]
          simp [resultEvents]
      · exact absurd hstep (by simp)
    · exact absurd hstep (by simp)

/-- C1: for every parent id, `harvestChildren` terminates (returns a
value rather than exhausting any sufficiently large fuel) whenever some
fetched page is below the 9000-record cutoff, empty, or equal to the
page fetched just before it: fuel `k+2` suffices when the condition
holds at fetch `k`. -/
theorem C1_harvest_termination (pages : Nat → List CRec) (mkdirOk : Bool)
    (writeOk : Nat → Bool) (k : Nat) (hcond : termCond pages k) :
    (harvestChildren pages mkdirOk writeOk (k+2)).isSome := by
  cases mkdirOk with
  | false => simp [harvestChildren]
  | true =>
    unfold harvestChildren
    simp only [if_true]
    by_cases hw : writeOk 1 = true
    · rw [if_pos hw]
      refine harvestLoop_term k 0 ?_
      simpa [termCond] using hcond
    · rw [if_neg hw]
      rfl

theorem C1_harvest_termination_witness :
    termCond (fun _ => ([] : List CRec)) 0 ∧
    (harvestChildren (fun _ => ([] : List CRec)) true (fun _ => true)
      (0+2)).isSome :=
  ⟨Or.inl (by simp),
    C1_harvest_termination (fun _ => []) true (fun _ => true) 0
      (Or.inl (by simp))⟩

/-- C2 counterexample: a parent whose comment response has zero records
still gets one shard file written (the first page is persisted
unconditionally), not zero as the claim states. -/
theorem C2_counterexample :
    (harvestChildren (fun _ => ([] : List CRec)) true (fun _ => true) 1).map
      (fun r => (resultShards r).length) = some 1 ∧
    ¬ ((harvestChildren (fun _ => ([] : List CRec)) true (fun _ => true)
      1).map (fun r => (resultShards r).length) = some 0) := by
  decide

/-- C2 amended: the first page is persisted unconditionally as shard 1
(even when empty, giving one shard and count 0 for a zero-record parent);
a single page of 5 records gives exactly one shard and count 5; and in
every run the first shard written is exactly (number 1, first page). -/
theorem C2_first_page_unconditional :
    (∀ p : List CRec, p.length = 5 →
      (harvestChildren (fun n => if n = 0 then p else []) true
        (fun _ => true) 1).map
        (fun r => ((resultShards r).length, resultCounter r)) =
        some (1, 5)) ∧
    ((harvestChildren (fun _ => ([] : List CRec)) true (fun _ => true)
      1).map (fun r => ((resultShards r).length, resultCounter r)) =
      some (1, 0)) ∧
    (∀ (pages : Nat → List CRec) (wo : Nat → Bool) (fuel : Nat)
      (r : HarvestResult), harvestChildren pages true wo fuel = some r →
      wo 1 = true → (resultShards r).head? = some (1, pages 0)) := by
  refine ⟨?_, by decide, ?_⟩
  · intro p hp
    unfold harvestChildren
    simp only [if_pos rfl]
    rw [harvestLoop_small (by simp; omega) (by omega)]
    simp [resultShards, resultCounter, hp]
  · intro pages wo fuel r h hw
    unfold harvestChildren at h
    simp only [if_true] at h
    rw [if_pos hw] at h
    obtain ⟨etail, stail, hev, hbc, hc, hs⟩ := harvestLoop_spec h
    rw [hs]
    simp

theorem C2_first_page_unconditional_witness :
    ([CRec.mk 1 "a", CRec.mk 2 "b", CRec.mk 3 "c", CRec.mk 4 "d",
      CRec.mk 5 "e"].length = 5) ∧
    ((harvestChildren
      (fun n => if n = 0 then [CRec.mk 1 "a", CRec.mk 2 "b", CRec.mk 3 "c",
        CRec.mk 4 "d", CRec.mk 5 "e"] else []) true (fun _ => true) 1).map
      (fun r => ((resultShards r).length, resultCounter r)) = some (1, 5)) ∧
    ((harvestChildren (fun _ => ([] : List CRec)) true (fun _ => true)
      1).map (fun r => ((resultShards r).length, resultCounter r)) =
      some (1, 0)) :=
  ⟨by decide,
    C2_first_page_unconditional.1 _ (by decide),
    C2_first_page_unconditional.2.1⟩

/-- C3: within one parent id's run, every follow-up query's `before`
bound equals the minimum `created_utc` of the previous non-empty page
(`boundChain`), and, provided every fetched page respects its query's
upper bound, the sequence of bounds is non-increasing. -/
theorem C3_cursor_monotone (pages : Nat → List CRec) (mkdirOk : Bool)
    (writeOk : Nat → Bool) (fuel : Nat) (r : HarvestResult)
    (h : harvestChildren pages mkdirOk writeOk fuel = some r)
    (hresp : ∀ e ∈ resultEvents r, ∀ rec ∈ e.page, rec.dt ≤ e.bound) :
    boundChain (pages 0) (resultEvents r) ∧
    (resultEvents r).Chain' (fun a b => b.bound ≤ a.bound) := by
  have hbc : boundChain (pages 0) (resultEvents r) := by
    cases mkdirOk with
    | false =>
      unfold harvestChildren at h
      obtain rfl : HarvestResult.mkdirError = r := Option.some.inj h
      exact trivial
    | true =>
      unfold harvestChildren at h
      simp only [if_true] at h
      by_cases hw : writeOk 1 = true
      · rw [if_pos hw] at h
        obtain ⟨etail, stail, hev, hbc', hc, hs⟩ := harvestLoop_spec h
        rw [hev]
        simpa using hbc'
      · rw [if_neg hw] at h
        obtain rfl := Option.some.inj h
        exact trivial
  exact ⟨hbc, boundChain_chain' hbc hresp⟩

theorem C3_cursor_monotone_witness :
    harvestChildren c3Pages true (fun _ => true) 2 =
      some (.ok c3State) ∧
    (∀ e ∈ resultEvents (.ok c3State), ∀ rec ∈ e.page,
      rec.dt ≤ e.bound) ∧
    (boundChain (c3Pages 0) (resultEvents (.ok c3State)) ∧
      (resultEvents (.ok c3State)).Chain'
        (fun a b => b.bound ≤ a.bound)) := by
  have hlen1 : c3Page1.length = 9000 := by
    rw [c3Page1, List.length_replicate]
  have hrun : harvestChildren c3Pages true (fun _ => true) 2 =
      some (.ok c3State) := by
    have h := harvestChildren_two_pages c3Page1 c3Page2
      (by omega)
      (by intro hh; have h2 := congrArg List.length hh
          rw [hlen1] at h2; simp [c3Page2] at h2)
      (by simp [c3Page2])
      (by norm_num [c3Page2])
    rw [show c3Pages =
      (fun n => if n = 0 then c3Page1 else if n = 1 then c3Page2 else [])
      from rfl, h]
    have hmin : pageMin c3Page1 = 5 := by
      rw [c3Page1]
      exact pageMin_replicate (by norm_num) ⟨5, "x"⟩
    rw [hmin, hlen1]
    norm_num [c3Page2, c3State]
  have hresp : ∀ e ∈ resultEvents (.ok c3State), ∀ rec ∈ e.page,
      rec.dt ≤ e.bound := by decide
  exact ⟨hrun,  hresp,
    C3_cursor_monotone c3Pages true (fun _ => true) 2 _ hrun hresp⟩

/-- C5: scenario B -- a first page of exactly 9000 records followed by a
page of 500 records with strictly lower timestamps gives two shards,
count 9500, and exactly one follow-up query; moreover (with writes
succeeding) a follow-up query is issued if and only if the first page
holds at least 9000 records. -/
theorem C5_cutoff_pagination :
    (∀ (p1 p2 : List CRec) (fuel : Nat), p1.length = 9000 →
      p2.length = 500 → (∀ rec ∈ p2, rec.dt < pageMin p1) → 2 ≤ fuel →
      (harvestChildren
        (fun n => if n = 0 then p1 else if n = 1 then p2 else [])
        true (fun _ => true) fuel).map
        (fun r => ((resultShards r).length, resultCounter r,
          (resultEvents r).length)) = some (2, 9500, 1)) ∧
    (∀ (pages : Nat → List CRec) (fuel : Nat) (r : HarvestResult),
      harvestChildren pages true (fun _ => true) fuel = some r →
      (resultEvents r ≠ [] ↔ 9000 ≤ (pages 0).length)) := by
  constructor
  · intro p1 p2 fuel h1 h2 _ hfuel
    have hrun := harvestChildren_two_pages p1 p2
      (by omega)
      (by intro hh; rw [hh] at h2; omega)
      (by intro hh; rw [hh] at h2; simp at h2)
      (by omega)
    rw [harvestChildren_mono_le hfuel hrun]
    simp [resultShards, resultCounter, resultEvents, h1, h2]
  · intro pages fuel r h
    replace h : harvestLoop pages (fun _ => true) fuel (pages 0) 1
        ⟨(pages 0).length, 1, [(1, pages 0)], [1], [], []⟩ = some r := h
    constructor
    · intro hne
      obtain ⟨etail, stail, hev, hbc, hc, hs⟩ := harvestLoop_spec h
      rw [hev] at hne
      simp only [List.nil_append] at hne
      cases etail with
      | nil => exact absurd rfl hne
      | cons e rest =>
        exact hbc.2.1
    · intro hbig
      cases fuel with
      | zero => exact absurd h (by simp [harvestLoop])
      | succ n =>
        rw [harvestLoop] at h
        cases hstep : harvestStep pages (fun _ => true) (pages 0) 1
            ⟨(pages 0).length, 1, [(1, pages 0)], [1], [], []⟩ with
        | error r' =>
          rw [hstep] at h
          obtain rfl : r' = r := Option.some.inj h
          have hev := (harvestStep_big_events (by omega)).2 _ hstep
          rw [hev]
          simp
        | ok pr =>
          obtain ⟨df2, st'⟩ := pr
          rw [hstep] at h
          have hev' := (harvestStep_big_events (by omega)).1 df2 st' hstep
          obtain ⟨etail, stail, hev, hbc, hc, hs⟩ := harvestLoop_spec h
          rw [hev, hev']
          simp

theorem C5_cutoff_pagination_witness :
    ((List.replicate 9000 (CRec.mk 5 "x")).length = 9000) ∧
    ((List.replicate 500 (CRec.mk 3 "y")).length = 500) ∧
    (∀ rec ∈ List.replicate 500 (CRec.mk 3 "y"),
      rec.dt < pageMin (List.replicate 9000 (CRec.mk 5 "x"))) ∧
    ((harvestChildren
      (fun n => if n = 0 then List.replicate 9000 (CRec.mk 5 "x")
        else if n = 1 then List.replicate 500 (CRec.mk 3 "y") else [])
      true (fun _ => true) 2).map
      (fun r => ((resultShards r).length, resultCounter r,
        (resultEvents r).length)) = some (2, 9500, 1)) := by
  have hmin : pageMin (List.replicate 9000 (CRec.mk 5 "x")) = 5 :=
    pageMin_replicate (by norm_num) _
  have hdt : ∀ rec ∈ List.replicate 500 (CRec.mk 3 "y"),
      rec.dt < pageMin (List.replicate 9000 (CRec.mk 5 "x")) := by
    intro rec hrec
    rw [List.eq_of_mem_replicate hrec, hmin]
    norm_num
  exact ⟨List.length_replicate .., List.length_replicate .., hdt,
    C5_cutoff_pagination.1 _ _ 2 (List.length_replicate ..)
      (List.length_replicate ..) hdt (le_refl 2)⟩

/-- C6: when the comment API returns the same non-empty (cutoff-sized)
page twice in a row, harvesting stops after the first shard write: the
duplicate is logged distinctly and not persisted, exactly one shard
exists, and the loop terminates. -/
theorem C6_duplicate_page_stops (p : List CRec) (fuel : Nat)
    (hbig : 9000 ≤ p.length) (hfuel : 2 ≤ fuel) :
    ∃ st, harvestChildren (fun _ => p) true (fun _ => true) fuel =
        some (.ok st) ∧
      st.shards = [(1, p)] ∧
      st.logs = ["Skipping duplicate DataFrame..."] :=
  ⟨_, harvestChildren_mono_le hfuel (harvestChildren_dup (by omega)),
    rfl, rfl⟩

theorem C6_duplicate_page_stops_witness :
    (9000 ≤ (List.replicate 9000 (CRec.mk 5 "x")).length) ∧ (2 ≤ 2) ∧
    (∃ st, harvestChildren (fun _ => List.replicate 9000 (CRec.mk 5 "x"))
        true (fun _ => true) 2 = some (.ok st) ∧
      st.shards = [(1, List.replicate 9000 (CRec.mk 5 "x"))] ∧
      st.logs = ["Skipping duplicate DataFrame..."]) :=
  ⟨by rw [List.length_replicate], le_refl 2,
    C6_duplicate_page_stops _ 2 (by rw [List.length_replicate]) (le_refl 2)⟩

/-- C9: a filesystem failure is fatal and never retried.  A failing
`mkdir` surfaces immediately.  A failing shard write with file number
`fn` surfaces as `writeError`: the write oracle is false exactly at
`fn`, the attempted file numbers are exactly `1, ..., fn` (each
attempted once, the failed one last, so nothing is written or retried
after the error), and the persisted shards are exactly the writes
`1, ..., fn-1` that preceded the failure. -/
theorem C9_filesystem_error_fatal :
    (∀ (pages : Nat → List CRec) (wo : Nat → Bool) (fuel : Nat),
      harvestChildren pages false wo fuel = some .mkdirError) ∧
    (∀ (pages : Nat → List CRec) (wo : Nat → Bool) (fuel fn : Nat)
      (st : HarvestState),
      harvestChildren pages true wo fuel = some (.writeError fn st) →
      wo fn = false ∧ 1 ≤ fn ∧ st.attempts = List.range' 1 fn ∧
        st.attempts.Nodup ∧ st.attempts.getLast? = some fn ∧
        st.shards.map Prod.fst = List.range' 1 (fn - 1)) := by
  constructor
  · intro pages wo fuel
    rfl
  · intro pages wo fuel fn st h
    obtain ⟨hwo, hfn, hatt, hsh⟩ := harvestChildren_writeError h
    refine ⟨hwo, hfn, hatt, ?_, ?_, hsh⟩
    · rw [hatt]
      exact List.nodup_range' 1 fn
    · rw [hatt]
      cases fn with
      | zero => omega
      | succ m =>
        rw [List.range'_1_concat, List.getLast?_concat]
        simp [Nat.add_comm]

theorem C9_filesystem_error_fatal_witness :
    (harvestChildren (fun _ => ([] : List CRec)) true (fun _ => false) 1 =
      some (.writeError 1 ⟨0, 1, [], [1], [], []⟩)) ∧
    ((fun _ : Nat => false) 1 = false ∧ 1 ≤ 1 ∧
      ([1] : List Nat) = List.range' 1 1 ∧ ([1] : List Nat).Nodup ∧
      ([1] : List Nat).getLast? = some 1 ∧
      (([] : List (Nat × List CRec)).map Prod.fst = List.range' 1 0)) := by
  have hrun : harvestChildren (fun _ => ([] : List CRec)) true
      (fun _ => false) 1 = some (.writeError 1 ⟨0, 1, [], [1], [], []⟩) := by
    decide
  exact ⟨hrun, C9_filesystem_error_fatal.2 _ _ 1 1 _ hrun⟩

/-- C10: the counter is incremented before the duplicate check, so the
count returned equals the size of the first page plus the sizes of all
follow-up pages fetched (including pages later discarded as duplicates
or empty); `get_comments` sums these per-row counts; and for a source
that returns the same cutoff-sized page twice, the returned count
(twice the page size) strictly exceeds the records persisted to shards. -/
theorem C10_counter_counts_discarded_pages :
    (∀ (pages : Nat → List CRec) (wo : Nat → Bool) (fuel : Nat)
      (r : HarvestResult), harvestChildren pages true wo fuel = some r →
      resultCounter r =
        (pages 0).length +
          ((resultEvents r).map fun e => e.page.length).sum) ∧
    (∀ (rows : List (Nat → List CRec)) (fuel total : Nat)
      (sts : List HarvestState), get_comments rows fuel = some (total, sts) →
      total = (sts.map fun st => st.counter).sum) ∧
    (∀ p : List CRec, 9000 ≤ p.length →
      ∃ st, harvestChildren (fun _ => p) true (fun _ => true) 2 =
          some (.ok st) ∧ st.counter = 2 * p.length ∧
        ((st.shards.map fun s => s.2.length).sum < st.counter)) := by
  refine ⟨?_, ?_, ?_⟩
  · intro pages wo fuel r h
    unfold harvestChildren at h
    simp only [if_true] at h
    by_cases hw : wo 1 = true
    · rw [if_pos hw] at h
      obtain ⟨etail, stail, hev, hbc, hc, hs⟩ := harvestLoop_spec h
      rw [hc, hev]
      simp
    · rw [if_neg hw] at h
      obtain rfl := Option.some.inj h
      simp [resultCounter, resultEvents]
  · intro rows
    induction rows with
    | nil =>
      intro fuel total sts h
      unfold get_comments at h
      have h12 := Prod.mk.injEq .. ▸ Option.some.inj h
      obtain ⟨h1, h2⟩ := h12
      subst h1
      subst h2
      simp
    | cons rp rest ih =>
      intro fuel total sts h
      unfold get_comments at h
      cases hr : harvestChildren rp true (fun _ => true) fuel with
      | none => rw [hr] at h; simp at h
      | some hres =>
        rw [hr] at h
        cases hres with
        | mkdirError => simp at h
        | writeError fn st => simp at h
        | ok st =>
          cases hrest : get_comments rest fuel with
          | none => rw [hrest] at h; simp at h
          | some pr =>
            obtain ⟨cnt, sts'⟩ := pr
            rw [hrest] at h
            simp only [Option.some.injEq, Prod.mk.injEq] at h
            obtain ⟨h1, h2⟩ := h
            subst h1
            subst h2
            rw [ih fuel cnt sts' hrest]
            simp
  · intro p hbig
    refine ⟨_, harvestChildren_dup (by omega), by simp; ring, ?_⟩
    show ([(1, p)].map fun s => s.2.length).sum < p.length + p.length
    simp
    omega

theorem C10_counter_counts_discarded_pages_witness :
    (harvestChildren (fun _ => ([] : List CRec)) true (fun _ => true) 1 =
      some (.ok ⟨0, 1, [(1, [])], [1], [], []⟩)) ∧
    (resultCounter (.ok ⟨0, 1, [(1, [])], [1], [], []⟩) =
      ((fun _ : Nat => ([] : List CRec)) 0).length +
        ((resultEvents (.ok ⟨0, 1, [(1, [])], [1], [], []⟩)).map
          fun e => e.page.length).sum) ∧
    (9000 ≤ (List.replicate 9000 (CRec.mk 5 "x")).length) ∧
    (∃ st, harvestChildren (fun _ => List.replicate 9000 (CRec.mk 5 "x"))
        true (fun _ => true) 2 = some (.ok st) ∧
      st.counter = 2 * (List.replicate 9000 (CRec.mk 5 "x")).length ∧
      ((st.shards.map fun s => s.2.length).sum < st.counter)) := by
  have hrun : harvestChildren (fun _ => ([] : List CRec)) true
      (fun _ => true) 1 = some (.ok ⟨0, 1, [(1, [])], [1], [], []⟩) := by
    decide
  exact ⟨hrun,
    C10_counter_counts_discarded_pages.1 _ _ 1 _ hrun,
    by rw [List.length_replicate],
    C10_counter_counts_discarded_pages.2.2 _ (by rw [List.length_replicate])⟩

theorem retryLoop_aux {α : Type} (op : Nat → Except String α) (a : α) :
    ∀ (k attempt : Nat) (logs : List String) (slept : Nat),
    (∀ i, i < k → ∃ e, op (attempt + i) = .error e) →
    op (attempt + k) = .ok a →
    ∃ out, retryLoop op (k+1) attempt logs slept = some out ∧
      out.result = a ∧ out.failLogs.length = logs.length + k ∧
      out.sleepUnits = slept + 10 * k := by
  intro k
  induction k with
  | zero =>
    intro attempt logs slept _ hok
    rw [show attempt + 0 = attempt from rfl] at hok
    refine ⟨⟨a, logs, slept⟩, ?_, rfl, by simp, by simp⟩
    rw [retryLoop, hok]
  | succ k ih =>
    intro attempt logs slept hfail hok
    obtain ⟨e, he⟩ := hfail 0 (by omega)
    rw [show attempt + 0 = attempt from rfl] at he
    obtain ⟨out, h1, h2, h3, h4⟩ := ih (attempt+1)
      (logs ++ [e ++ "\nRetrying in 10 seconds..."]) (slept + 10)
      (fun i hi => by
        have hh := hfail (i+1) (by omega)
        rwa [show attempt + (i+1) = attempt + 1 + i from by omega] at hh)
      (by rwa [show attempt + 1 + k = attempt + (k+1) from by omega])
    refine ⟨out, ?_, h2, ?_, by omega⟩
    · rw [retryLoop, he]
      exact h1
    · rw [h3]
      simp only [List.length_append, List.length_cons, List.length_nil]
      omega

/-- C7: a retried call that fails N times and then succeeds returns the
same result as one succeeding immediately, emits exactly N failure log
lines, and sleeps 10 time units after each failure. -/
theorem C7_retry_transparent {α : Type} (op : Nat → Except String α)
    (a : α) (N : Nat)
    (hfail : ∀ i, i < N → ∃ e, op i = .error e)
    (hok : op N = .ok a) :
    ∃ out, withRetry op (N+1) = some out ∧ out.result = a ∧
      out.failLogs.length = N ∧ out.sleepUnits = 10 * N ∧
      withRetry (fun _ => Except.ok a) 1 = some ⟨a, [], 0⟩ := by
  obtain ⟨out, h1, h2, h3, h4⟩ := retryLoop_aux op a N 0 [] 0
    (by simpa using hfail) (by simpa using hok)
  exact ⟨out, h1, h2, by simpa using h3, by simpa using h4, rfl⟩

theorem C7_retry_transparent_witness :
    (∀ i, i < 1 → ∃ e, (fun j => if j = 0 then Except.error "boom"
      else Except.ok (7 : Nat)) i = Except.error e) ∧
    ((fun j => if j = 0 then Except.error "boom"
      else Except.ok (7 : Nat)) 1 = Except.ok 7) ∧
    (∃ out, withRetry (fun j => if j = 0 then Except.error "boom"
        else Except.ok (7 : Nat)) (1+1) = some out ∧ out.result = 7 ∧
      out.failLogs.length = 1 ∧ out.sleepUnits = 10 * 1 ∧
      withRetry (fun _ => Except.ok (7 : Nat)) 1 = some ⟨7, [], 0⟩) := by
  have hfail : ∀ i, i < 1 → ∃ e, (fun j => if j = 0 then
      Except.error "boom" else Except.ok (7 : Nat)) i = Except.error e := by
    intro i hi
    have hz : i = 0 := by omega
    subst hz
    exact ⟨"boom", rfl⟩
  exact ⟨hfail, rfl, C7_retry_transparent _ 7 1 hfail rfl⟩

/-- C4 (code bug): the enrichment accumulator is not reset between
retries, so when the lookup of record "b" fails once, the final
supplemental list holds record "a" twice (three entries for two input
rows) instead of being identical to the clean run -- the positional
merge then misassigns scores. -/
theorem C4_enrichment_accumulator_leaks :
    get_updated_submission_information c4Lookup ["a", "b"] 2 =
      some [⟨"a", 1, 50⟩, ⟨"a", 1, 50⟩, ⟨"b", 2, 80⟩] ∧
    get_updated_submission_information c4CleanLookup ["a", "b"] 1 =
      some [⟨"a", 1, 50⟩, ⟨"b", 2, 80⟩] ∧
    (get_updated_submission_information c4Lookup ["a", "b"] 2).map
      (fun l => l.length) = some 3 ∧
    get_updated_submission_information c4Lookup ["a", "b"] 2 ≠
      get_updated_submission_information c4CleanLookup ["a", "b"] 1 := by
  decide

theorem collapseSpaces_head? : ∀ l : List Char,
    (collapseSpaces l).head? = l.head? := by
  intro l
  induction l with
  | nil => rfl
  | cons a t ih =>
    cases t with
    | nil => rfl
    | cons b rest =>
      rw [collapseSpaces]
      split
      · rename_i hab
        rw [ih]
        simp [hab.1, hab.2]
      · rfl

theorem noRun_collapseSpaces : ∀ l : List Char,
    noRun (collapseSpaces l) := by
  intro l
  induction l with
  | nil => exact List.chain'_nil
  | cons a t ih =>
    cases t with
    | nil => simp [collapseSpaces, noRun]
    | cons b rest =>
      rw [collapseSpaces]
      split
      · exact ih
      · rename_i hab
        show List.Chain' _ (a :: collapseSpaces (b :: rest))
        cases hc : collapseSpaces (b :: rest) with
        | nil => simp
        | cons c cs =>
          rw [List.chain'_cons]
          constructor
          · have hh := collapseSpaces_head? (b :: rest)
            rw [hc] at hh
            simp only [List.head?_cons, Option.some.injEq] at hh
            intro hcon
            exact hab ⟨hcon.1, hh ▸ hcon.2⟩
          · have h2 := ih
            rw [noRun, hc] at h2
            exact h2

theorem chain'_dropWhile {R : Char → Char → Prop} {p : Char → Bool} :
    ∀ {l : List Char}, l.Chain' R → (l.dropWhile p).Chain' R := by
  intro l
  induction l with
  | nil => intro h; simp
  | cons a t ih =>
    intro h
    rw [List.dropWhile_cons]
    split
    · exact ih (List.chain'_cons'.mp h).2
    · exact h

theorem noRun_reverse {l : List Char} (h : noRun l) : noRun l.reverse := by
  rw [noRun, List.chain'_reverse]
  refine List.Chain'.imp ?_ h
  intro a b hab hcon
  exact hab ⟨hcon.2, hcon.1⟩

theorem noRun_pyStrip {l : List Char} (h : noRun l) : noRun (pyStrip l) := by
  rw [pyStrip, dropTrailing]
  exact noRun_reverse (chain'_dropWhile (noRun_reverse (chain'_dropWhile h)))

theorem head?_dropWhile_not {p : Char → Bool} :
    ∀ {l : List Char} {c : Char},
    (l.dropWhile p).head? = some c → p c = false := by
  intro l
  induction l with
  | nil => intro c h; simp [List.dropWhile] at h
  | cons a t ih =>
    intro c h
    rw [List.dropWhile_cons] at h
    split at h
    · exact ih h
    · rename_i hpa
      simp only [List.head?_cons, Option.some.injEq] at h
      rw [← h]
      exact Bool.not_eq_true _ ▸ Bool.of_not_eq_true hpa

theorem dropTrailing_append (l : List Char) :
    dropTrailing l ++ (l.reverse.takeWhile pyWs).reverse = l := by
  rw [dropTrailing, ← List.reverse_append, List.takeWhile_append_dropWhile,
    List.reverse_reverse]

theorem head?_dropTrailing {l : List Char} {c : Char}
    (h : (dropTrailing l).head? = some c) : l.head? = some c := by
  have happ := dropTrailing_append l
  rw [← happ, List.head?_append, h]
  rfl

theorem notWsEnds_pyStrip (l : List Char) : notWsEnds (pyStrip l) := by
  constructor
  · intro c h
    exact head?_dropWhile_not (head?_dropTrailing h)
  · intro c h
    rw [pyStrip, dropTrailing, List.getLast?_reverse] at h
    exact head?_dropWhile_not h

theorem removeAllAux_noop (pat : List Char) :
    ∀ (fuel : Nat) (l : List Char), containsSub pat l = false →
    removeAllAux pat fuel l = l := by
  intro fuel
  induction fuel with
  | zero => intro l _; rfl
  | succ n ih =>
    intro l h
    cases l with
    | nil => rfl
    | cons c cs =>
      rw [containsSub, Bool.or_eq_false_iff] at h
      rw [removeAllAux, if_neg, ih cs h.2]
      intro hcon
      exact absurd hcon.2 (by simp [h.1])

theorem removeAll_noop {pat l : List Char}
    (h : containsSub pat l = false) : removeAll pat l = l :=
  removeAllAux_noop pat l.length l h

/-- C8 counterexample: a comment body equal to "[deleted]" is mapped by
`dict_formatter` to the None sentinel, not to the empty string. -/
theorem C8_counterexample :
    commentBodyField "[deleted]" = none ∧
    ¬ (commentBodyField "[deleted]" = some "") := by
  decide

/-- C8 amended: a submission field equal to a marker normalizes to the
empty string, while a comment body equal to a marker is mapped to the
None sentinel; comment bodies in general have no space runs and no
whitespace at either end; submission fields in general have no
whitespace at either end, and also no space runs whenever no marker
occurrence is removed (marker removal runs after the collapse, so it
can reintroduce adjacent spaces). -/
theorem C8_normalization :
    submissionTextClean "[deleted]" = "" ∧
    submissionTextClean "[removed]" = "" ∧
    commentBodyField "[deleted]" = none ∧
    commentBodyField "[removed]" = none ∧
    (∀ s : String, noRun (commentBodyClean s).data ∧
      notWsEnds (commentBodyClean s).data) ∧
    (∀ s : String, notWsEnds (submissionTextClean s).data) ∧
    (∀ s : String,
      containsSub deletedMark
        (collapseSpaces (asciiIgnore (nlToSpace s.data))) = false →
      containsSub removedMark
        (collapseSpaces (asciiIgnore (nlToSpace s.data))) = false →
      noRun (submissionTextClean s).data) := by
  refine ⟨by decide, by decide, by decide, by decide, ?_, ?_, ?_⟩
  · intro s
    constructor
    · exact noRun_pyStrip (noRun_collapseSpaces _)
    · exact notWsEnds_pyStrip _
  · intro s
    exact notWsEnds_pyStrip _
  · intro s h1 h2
    show noRun (pyStrip (removeAll removedMark (removeAll deletedMark
      (collapseSpaces (asciiIgnore (nlToSpace s.data))))))
    rw [removeAll_noop h1, removeAll_noop h2]
    exact noRun_pyStrip (noRun_collapseSpaces _)

theorem C8_normalization_witness :
    (containsSub deletedMark
      (collapseSpaces (asciiIgnore (nlToSpace "  x   y ".data))) = false) ∧
    (containsSub removedMark
      (collapseSpaces (asciiIgnore (nlToSpace "  x   y ".data))) = false) ∧
    noRun (submissionTextClean "  x   y ").data ∧
    (noRun (commentBodyClean "  x   y ").data ∧
      notWsEnds (commentBodyClean "  x   y ").data) ∧
    notWsEnds (submissionTextClean "  x   y ").data :=
  ⟨by decide, by decide,
    C8_normalization.2.2.2.2.2.2 "  x   y " (by decide) (by decide),
    C8_normalization.2.2.2.2.1 "  x   y ",
    C8_normalization.2.2.2.2.2.1 "  x   y "⟩

end RedditScraper
